import Mathlib

/-!
Shallow embedding of the document-store layer of the repository
(file src/database.py): the in-memory fallback collection
(class _MemoryCollection), outbound serialization (_serialize),
and the CRUD helpers create_document, get_documents, update_document,
delete_document, together with the networked-mode inbound identifier
translation.

Modelling conventions:
- Python dicts are insertion-ordered association structures; we model a
  document as the inductive VDoc (ordered key/value entries, assignment
  keeps the position of an existing key and appends a new key at the end,
  exactly like a Python dict), and a collection as an association list
  from identifier strings to documents.
- datetime values are modelled as natural-number timestamps (constructor
  vdt); the BSON ObjectId type of the networked backend is modelled by
  the constructor oidV carrying its 24-character hexadecimal string form
  (str(ObjectId) in Python returns exactly that string).
- Python int(x) conversion, used by the $inc branch of update_one, is
  modelled by pyInt: defined on integers and on strings that parse as
  integer literals, undefined (raising) otherwise; operations that can
  raise return Option, with none modelling a propagated exception.
- Random identifier generation (os.urandom(12).hex()) and the clock
  (datetime.utcnow()) are nondeterministic inputs; they are passed as
  explicit parameters.
-/

namespace IdeaStore

mutual

inductive Value where
  | vstr (s : String)
  | vint (n : Int)
  | vdt (t : Nat)
  | oidV (s : String)
  | vlist (xs : VList)
  | vdoc (d : VDoc)

inductive VList where
  | nil
  | cons (v : Value) (tl : VList)

inductive VDoc where
  | nil
  | cons (k : String) (v : Value) (tl : VDoc)

end

deriving instance DecidableEq for Value, VList, VDoc

/-- Python dict lookup d[k] / d.get(k): first (unique) matching key. -/
def VDoc.get : VDoc → String → Option Value
  | .nil, _ => none
  | .cons k v tl, key => if k = key then some v else VDoc.get tl key

/-- Python dict assignment d[k] = v: replaces the value of an existing key
in place (keeping its position) and appends a new key at the end. -/
def VDoc.set : VDoc → String → Value → VDoc
  | .nil, key, val => .cons key val .nil
  | .cons k v tl, key, val =>
      if k = key then .cons k val tl else .cons k v (VDoc.set tl key val)

/-- Python d.setdefault(k, v): keeps an existing value, otherwise inserts v. -/
def VDoc.setdefault (d : VDoc) (key : String) (val : Value) : VDoc :=
  match d.get key with
  | some _ => d
  | none => d.set key val

/-- The list of keys of a document, in order. -/
def VDoc.keys : VDoc → List String
  | .nil => []
  | .cons k _ tl => k :: VDoc.keys tl

/-- Append a value at the end of a list value (Python list.append). -/
def VList.snoc : VList → Value → VList
  | .nil, v => .cons v .nil
  | .cons x tl, v => .cons x (VList.snoc tl v)

/-- An in-memory collection: the items dict of _MemoryCollection, an
insertion-ordered mapping from identifier string to document. -/
abbrev Col := List (String × VDoc)

/-- Lookup self.items[k] (first matching key; keys are unique in a dict). -/
def dictGet : Col → String → Option VDoc
  | [], _ => none
  | (k, d) :: tl, key => if k = key then some d else dictGet tl key

/-- Membership test k in self.items. -/
def dictHas (items : Col) (key : String) : Bool :=
  (dictGet items key).isSome

/-- Python dict assignment self.items[k] = d. -/
def dictSet : Col → String → VDoc → Col
  | [], key, d => [(key, d)]
  | (k, v) :: tl, key, d =>
      if k = key then (k, d) :: tl else (k, v) :: dictSet tl key d

/-- Python del self.items[k]. -/
def dictDel : Col → String → Col
  | [], _ => []
  | (k, v) :: tl, key => if k = key then tl else (k, v) :: dictDel tl key

/-- list(self.items.values()): all documents in insertion order. -/
def dictValues (items : Col) : List VDoc :=
  items.map Prod.snd

/-- _MemoryCollection.insert_one: stores the document under a freshly drawn
random hex token oid, with its _id field set to that token, and reports the
token as inserted_id. The random draw is passed in as the parameter oid. -/
def insert_one (items : Col) (oid : String) (doc : VDoc) : Col × String :=
  (dictSet items oid (doc.set "_id" (.vstr oid)), oid)

/-- Filter shapes accepted by the store interface (section 6 of the spec),
plus the shape of a non-empty filter without an _id key, which
_MemoryCollection.find answers through its naive return-all fallback. -/
inductive MemFilter where
  | empty
  | idEq (s : String)
  | idIn (ids : List String)
  | noId
  deriving DecidableEq

/-- _MemoryCollection.find: empty filter returns all values; a filter with
an _id key returns the one matching document for an equality value, the
present documents in the given order for a dollar-in value, and a filter
without an _id key returns all values (naive fallback). -/
def memFind (items : Col) (f : MemFilter) : List VDoc :=
  match f with
  | .empty => dictValues items
  | .idEq s =>
      match dictGet items s with
      | some d => [d]
      | none => []
  | .idIn ids => ids.filterMap (fun i => dictGet items i)
  | .noId => dictValues items

/-- Python int(x): defined on ints and on strings holding an integer
literal, raising (modelled as none) on every other value. -/
def pyInt : Value → Option Int
  | .vint n => some n
  | .vstr s => s.toInt?
  | _ => none

/-- One entry of the dollar-inc loop of update_one:
items[tid][k] = int(items[tid].get(k, 0)) + int(v); either int() conversion
can raise, which propagates (none). -/
def applyInc1 (d : VDoc) (k : String) (v : Value) : Option VDoc := do
  let a ← pyInt ((d.get k).getD (.vint 0))
  let b ← pyInt v
  pure (d.set k (.vint (a + b)))

/-- The dollar-inc loop over the payload entries, in order. -/
def applyIncs : VDoc → VDoc → Option VDoc
  | d, .nil => some d
  | d, .cons k v tl => do
      let d1 ← applyInc1 d k v
      applyIncs d1 tl

/-- One entry of the dollar-push loop of update_one:
arr = items[tid].setdefault(k, []); if isinstance(arr, list): arr.append(v).
A missing field becomes the one-element list, an existing list gets the
value appended, any other existing value leaves the document unchanged. -/
def applyPush1 (d : VDoc) (k : String) (v : Value) : VDoc :=
  match d.get k with
  | none => d.set k (.vlist (.cons v .nil))
  | some (.vlist xs) => d.set k (.vlist (xs.snoc v))
  | some _ => d

/-- The dollar-push loop over the payload entries, in order. -/
def applyPushes : VDoc → VDoc → VDoc
  | d, .nil => d
  | d, .cons k v tl => applyPushes (applyPush1 d k v) tl

/-- The dollar-set loop of update_one: items[tid][k] = v for each entry. -/
def applySet : VDoc → VDoc → VDoc
  | d, .nil => d
  | d, .cons k v tl => applySet (d.set k v) tl

/-- An update argument of _MemoryCollection.update_one: the optional
dollar-inc, dollar-push and dollar-set payload dicts (none models absence
of the operator key in the update dict). -/
structure UpdateSpec where
  incs : Option VDoc
  pushes : Option VDoc
  sets : Option VDoc
  deriving DecidableEq

/-- Result shim of update_one: matched_count and modified_count. -/
structure UpdateRes where
  matched : Nat
  modified : Nat
  deriving DecidableEq

/-- _MemoryCollection.update_one. The parameter fid is
filter_dict.get("_id") (none when the filter has no _id key; a missing or
unknown id leaves zero counts). When the id matches, the operators are
applied to that one document in the fixed order dollar-inc, dollar-push,
dollar-set, and matched_count = modified_count = 1 is reported. A raising
int() conversion inside dollar-inc propagates as none. -/
def update_one (items : Col) (fid : Option String) (u : UpdateSpec) :
    Option (Col × UpdateRes) :=
  match fid with
  | none => some (items, ⟨0, 0⟩)
  | some tid =>
      match dictGet items tid with
      | none => some (items, ⟨0, 0⟩)
      | some d => do
          let d1 ← match u.incs with
            | none => some d
            | some kvs => applyIncs d kvs
          let d2 := match u.pushes with
            | none => d1
            | some kvs => applyPushes d1 kvs
          let d3 := match u.sets with
            | none => d2
            | some kvs => applySet d2 kvs
          pure (dictSet items tid d3, ⟨1, 1⟩)

/-- _MemoryCollection.delete_one. The parameter fid is
filter_dict.get("_id"); a present id is removed with deleted_count 1,
otherwise deleted_count is 0. -/
def delete_one (items : Col) (fid : Option String) : Col × Nat :=
  match fid with
  | none => (items, 0)
  | some tid =>
      if dictHas items tid then (dictDel items tid, 1) else (items, 0)

/-- _is_object_id: isinstance(val, ObjectId), in the configuration where
the bson module is importable. -/
def isObjectIdVal : Value → Bool
  | .oidV _ => true
  | _ => false

/-- The element map of the list branch of _serialize:
str(x) if _is_object_id(x) else x. -/
def oidToStr : Value → Value
  | .oidV s => .vstr s
  | v => v

mutual

/-- The per-value branch of _serialize: an ObjectId becomes its string, a
datetime passes through, a list has only its direct ObjectId elements
stringified, a nested dict is serialized recursively, every other value
passes through unchanged. -/
def serializeVal : Value → Value
  | .oidV s => .vstr s
  | .vdt t => .vdt t
  | .vlist xs => .vlist (serializeList xs)
  | .vdoc d => .vdoc (serializeDoc d)
  | .vstr s => .vstr s
  | .vint n => .vint n

/-- The list comprehension of the list branch of _serialize. -/
def serializeList : VList → VList
  | .nil => .nil
  | .cons x tl => .cons (oidToStr x) (serializeList tl)

/-- _serialize over the entries of a document, in order. -/
def serializeDoc : VDoc → VDoc
  | .nil => .nil
  | .cons k v tl => .cons k (serializeVal v) (serializeDoc tl)

end

/-- create_document (memory backend): copies data, fills created_at and
updated_at by setdefault with the current time now, inserts under the
fresh token oid, and returns the new collection with the inserted id. -/
def create_document (items : Col) (data : VDoc) (oid : String) (now : Nat) :
    Col × String :=
  let payload := (data.setdefault "created_at" (.vdt now)).setdefault
    "updated_at" (.vdt now)
  insert_one items oid payload

/-- get_documents (memory backend): no inbound id translation is applied,
the find result is truncated to limit and each document is serialized. -/
def get_documents (items : Col) (f : MemFilter) (limit : Nat) : List VDoc :=
  ((memFind items f).take limit).map serializeDoc

/-- update_document (memory backend): builds the payload as data with
updated_at overwritten by the current time, issues a dollar-set update
through update_one against filter_dict.get("_id"), and returns the new
collection with modified_count. The none value models a propagated
exception (unreachable for a pure dollar-set update). -/
def update_document (items : Col) (fid : Option String) (data : VDoc)
    (now : Nat) : Option (Col × Nat) :=
  let payload := data.set "updated_at" (.vdt now)
  match update_one items fid ⟨none, none, some payload⟩ with
  | some (c, r) => some (c, r.modified)
  | none => none

/-- delete_document (memory backend): no inbound id translation is
applied; delegates to delete_one and returns deleted_count. -/
def delete_document (items : Col) (fid : Option String) : Col × Nat :=
  delete_one items fid

/-- A hexadecimal character, as accepted by the ObjectId constructor. -/
def isHexChar (c : Char) : Bool :=
  c.isDigit || (Char.ofNat 97 ≤ c && c ≤ Char.ofNat 102) ||
    (Char.ofNat 65 ≤ c && c ≤ Char.ofNat 70)

/-- Whether ObjectId(s) succeeds on a string: exactly 24 hex characters. -/
def isValidObjectId (s : String) : Bool :=
  s.length = 24 && s.toList.all isHexChar

/-- The inbound identifier translation shared verbatim by get_documents,
update_document and delete_document in networked mode: when the filter
holds a truthy (non-empty) string under _id, attempt ObjectId(s); on
success replace the value by the native identifier, on failure swallow
the exception and leave the filter unchanged. Every other _id value shape
(absent key, native id, the dollar-in dict, non-strings) is untouched. -/
def inboundTranslate (f : VDoc) : VDoc :=
  match f.get "_id" with
  | some (.vstr s) =>
      if s ≠ "" && isValidObjectId s then f.set "_id" (.oidV s) else f
  | _ => f

/-- Modelled from the spec: the networked backend (pymongo, not part of
src/) matches an _id equality filter by strict equality of the stored
_id value with the filter value; a string never equals a native id. -/
def mongoMatchId (stored : List VDoc) (v : Value) : List VDoc :=
  stored.filter (fun d => d.get "_id" == some v)

/-- Modelled from the spec: networked-mode get_documents on an _id
equality filter, after inbound translation, with outbound serialization
and truncation as in src/database.py lines 154-170. -/
def mongoGetById (stored : List VDoc) (f : VDoc) (limit : Nat) :
    List VDoc :=
  match (inboundTranslate f).get "_id" with
  | some v => ((mongoMatchId stored v).take limit).map serializeDoc
  | none => (stored.take limit).map serializeDoc

/-- Modelled from the spec: networked-mode update_document on an _id
equality filter reports modified_count 1 exactly when some stored
document matches the translated filter. -/
def mongoUpdateById (stored : List VDoc) (f : VDoc) : Nat :=
  match (inboundTranslate f).get "_id" with
  | some v => if (mongoMatchId stored v).isEmpty then 0 else 1
  | none => if stored.isEmpty then 0 else 1

/-- Modelled from the spec: networked-mode delete_document on an _id
equality filter reports deleted_count 1 exactly when some stored document
matches the translated filter. -/
def mongoDeleteById (stored : List VDoc) (f : VDoc) : Nat :=
  match (inboundTranslate f).get "_id" with
  | some v => if (mongoMatchId stored v).isEmpty then 0 else 1
  | none => if stored.isEmpty then 0 else 1

mutual

/-- Whether a backend-native identifier value occurs anywhere inside a
value, at any nesting depth. -/
def hasOidVal : Value → Bool
  | .oidV _ => true
  | .vlist xs => hasOidList xs
  | .vdoc d => hasOidDoc d
  | _ => false

/-- Whether a native identifier occurs anywhere inside a list value. -/
def hasOidList : VList → Bool
  | .nil => false
  | .cons x tl => hasOidVal x || hasOidList tl

/-- Whether a native identifier occurs anywhere inside a document. -/
def hasOidDoc : VDoc → Bool
  | .nil => false
  | .cons _ v tl => hasOidVal v || hasOidDoc tl

end

mutual

/-- The depth serialization actually reaches: no native identifier at the
top of a value, no native identifier among the direct elements of a list,
and recursively so inside nested documents. -/
def shallowClean : Value → Bool
  | .oidV _ => false
  | .vlist xs => listElemsClean xs
  | .vdoc d => shallowCleanDoc d
  | _ => true

/-- No direct element of the list is a native identifier. -/
def listElemsClean : VList → Bool
  | .nil => true
  | .cons x tl => !(isObjectIdVal x) && listElemsClean tl

/-- Every field value of the document is shallowly clean. -/
def shallowCleanDoc : VDoc → Bool
  | .nil => true
  | .cons _ v tl => shallowClean v && shallowCleanDoc tl

end

/-- Concrete caller payload for the round-trip counterexample: it supplies
an _id field and a native-identifier-valued field. -/
def cxData : VDoc := .cons "_id" (.vstr "zzz") (.cons "x" (.oidV "q") .nil)

/-- The document read back in the round-trip counterexample. -/
def cxReadBack : VDoc :=
  match get_documents (create_document [] cxData "aa" 0).1 (.idEq "aa") 1 with
  | [d] => d
  | _ => .nil

/-- Concrete document whose only field holds an empty list value. -/
def c3Doc : VDoc := .cons "x" (.vlist .nil) .nil

/-- Concrete one-document collection for the increment counterexample. -/
def c3Items : Col := [("i1", c3Doc)]

/-- Concrete update argument incrementing the list-valued field by one. -/
def c3Inc : UpdateSpec := ⟨some (.cons "x" (.vint 1) .nil), none, none⟩

/-- Concrete collection holding one document created at time 5. -/
def c5Items : Col :=
  (create_document [] (.cons "title" (.vstr "X") .nil) "id1" 5).1

/-- The document stored under id1 right after creation. -/
def c5Stored : VDoc := (dictGet c5Items "id1").getD .nil

/-- The collection after a public update at time 7 whose caller fields
supply a created_at value. -/
def c5After : Col :=
  ((update_document c5Items (some "id1")
    (.cons "created_at" (.vdt 99) .nil) 7).getD ([], 0)).1

/-- The document stored under id1 after that update. -/
def c5StoredAfter : VDoc := (dictGet c5After "id1").getD .nil

/-- Concrete document with a native identifier nested inside a document
that is itself an element of a list. -/
def c7NestedDoc : VDoc :=
  .cons "xs" (.vlist (.cons (.vdoc (.cons "r" (.oidV "ab") .nil)) .nil)) .nil

theorem VDoc.get_set_self :
    ∀ (d : VDoc) (k : String) (v : Value), (d.set k v).get k = some v
  | .nil, k, v => by simp [VDoc.set, VDoc.get]
  | .cons k0 v0 tl, k, v => by
      by_cases h : k0 = k
      · simp [VDoc.set, VDoc.get, h]
      · simp [VDoc.set, VDoc.get, h, VDoc.get_set_self tl k v]

theorem VDoc.get_set_ne :
    ∀ (d : VDoc) (k k0 : String) (v : Value), k ≠ k0 →
      (d.set k v).get k0 = d.get k0
  | .nil, k, k0, v, h => by simp [VDoc.set, VDoc.get, h]
  | .cons k1 v1 tl, k, k0, v, h => by
      by_cases h1 : k1 = k
      · subst h1
        simp [VDoc.set, VDoc.get, h]
      · by_cases h2 : k1 = k0
        · subst h2
          simp [VDoc.set, VDoc.get, h1]
        · simp [VDoc.set, VDoc.get, h1, h2,
            VDoc.get_set_ne tl k k0 v h]

theorem VDoc.get_setdefault_of_some (d : VDoc) (k k0 : String)
    (v v0 : Value) (h : d.get k0 = some v0) :
    (d.setdefault k v).get k0 = some v0 := by
  unfold VDoc.setdefault
  cases hk : d.get k with
  | some w => simpa [hk] using h
  | none =>
      have hne : k ≠ k0 := by
        intro he
        rw [he] at hk
        rw [hk] at h
        exact Option.noConfusion h
      simpa [VDoc.get_set_ne d k k0 v hne] using h

theorem VDoc.get_setdefault_isSome (d : VDoc) (k : String) (v : Value) :
    ((d.setdefault k v).get k).isSome = true := by
  unfold VDoc.setdefault
  cases hk : d.get k with
  | some w => simp [hk]
  | none => simp [VDoc.get_set_self]

theorem VDoc.get_setdefault_ne (d : VDoc) (k k0 : String) (v : Value)
    (h : k ≠ k0) : (d.setdefault k v).get k0 = d.get k0 := by
  unfold VDoc.setdefault
  cases hk : d.get k with
  | some w => rfl
  | none => exact VDoc.get_set_ne d k k0 v h

theorem VDoc.get_setdefault_of_none (d : VDoc) (k : String) (v : Value)
    (h : d.get k = none) : (d.setdefault k v).get k = some v := by
  unfold VDoc.setdefault
  rw [h]
  exact VDoc.get_set_self d k v

theorem dictGet_set_self (items : Col) (k : String) (d : VDoc) :
    dictGet (dictSet items k d) k = some d := by
  induction items with
  | nil => simp [dictSet, dictGet]
  | cons hd tl ih =>
      obtain ⟨k0, d0⟩ := hd
      by_cases h : k0 = k
      · simp [dictSet, dictGet, h]
      · simp [dictSet, dictGet, h, ih]

theorem dictGet_set_ne (items : Col) (k k0 : String) (d : VDoc)
    (h : k ≠ k0) : dictGet (dictSet items k d) k0 = dictGet items k0 := by
  induction items with
  | nil => simp [dictSet, dictGet, h]
  | cons hd tl ih =>
      obtain ⟨k1, d1⟩ := hd
      by_cases h1 : k1 = k
      · subst h1
        simp [dictSet, dictGet, h]
      · by_cases h2 : k1 = k0
        · subst h2
          simp [dictSet, dictGet, h1]
        · simp [dictSet, dictGet, h1, h2, ih]

theorem dictSet_self_of_get (items : Col) (k : String) (d : VDoc)
    (h : dictGet items k = some d) : dictSet items k d = items := by
  induction items with
  | nil => simp [dictGet] at h
  | cons hd tl ih =>
      obtain ⟨k0, d0⟩ := hd
      by_cases h0 : k0 = k
      · subst h0
        simp [dictGet] at h
        simp [dictSet, h]
      · simp [dictGet, h0] at h
        simp [dictSet, h0, ih h]

theorem dictGet_del_ne (items : Col) (k k0 : String) (h : k ≠ k0) :
    dictGet (dictDel items k) k0 = dictGet items k0 := by
  induction items with
  | nil => simp [dictDel, dictGet]
  | cons hd tl ih =>
      obtain ⟨k1, d1⟩ := hd
      by_cases h1 : k1 = k
      · subst h1
        simp [dictDel, dictGet, h]
      · simp [dictDel, dictGet, h1, ih]

theorem dictGet_del_self (items : Col) (k : String)
    (hnd : (items.map Prod.fst).Nodup) :
    dictGet (dictDel items k) k = none := by
  induction items with
  | nil => simp [dictDel, dictGet]
  | cons hd tl ih =>
      obtain ⟨k1, d1⟩ := hd
      simp only [List.map_cons, List.nodup_cons] at hnd
      by_cases h1 : k1 = k
      · subst h1
        simp only [dictDel, if_pos rfl]
        cases hg : dictGet tl k1 with
        | none => exact hg
        | some d2 =>
            exfalso
            have : k1 ∈ tl.map Prod.fst := by
              clear ih hnd
              induction tl with
              | nil => simp [dictGet] at hg
              | cons hd2 tl2 ih2 =>
                  obtain ⟨k2, d3⟩ := hd2
                  by_cases h2 : k2 = k1
                  · simp [h2]
                  · simp [dictGet, h2] at hg
                    simp [ih2 hg]
            exact hnd.1 this
      · simp [dictDel, dictGet, h1, ih hnd.2]

theorem dictGet_mem_keys (items : Col) (k : String) (d : VDoc)
    (h : dictGet items k = some d) : k ∈ items.map Prod.fst := by
  induction items with
  | nil => simp [dictGet] at h
  | cons hd tl ih =>
      obtain ⟨k1, d1⟩ := hd
      by_cases h1 : k1 = k
      · simp [h1]
      · simp [dictGet, h1] at h
        simp [ih h]

theorem VDoc.get_serializeDoc :
    ∀ (d : VDoc) (k : String),
      (serializeDoc d).get k = (d.get k).map serializeVal
  | .nil, k => by simp [serializeDoc, VDoc.get]
  | .cons k0 v tl, k => by
      by_cases h : k0 = k
      · simp [serializeDoc, VDoc.get, h]
      · simp [serializeDoc, VDoc.get, h, VDoc.get_serializeDoc tl k]

theorem serializeVal_fixed_of_get (d : VDoc) (k : String) (v : Value)
    (hfix : serializeDoc d = d) (h : d.get k = some v) :
    serializeVal v = v := by
  have h1 := VDoc.get_serializeDoc d k
  rw [hfix, h] at h1
  simpa using h1.symm

theorem VDoc.get_eq_none_of_not_mem_keys :
    ∀ (d : VDoc) (k : String), k ∉ d.keys → d.get k = none
  | .nil, k, _ => rfl
  | .cons k0 v tl, k, h => by
      simp only [VDoc.keys, List.mem_cons, not_or] at h
      have h0 : k0 ≠ k := fun he => h.1 he.symm
      simp [VDoc.get, h0, VDoc.get_eq_none_of_not_mem_keys tl k h.2]

theorem get_applySet_of_none :
    ∀ (p d : VDoc) (k : String), p.get k = none →
      (applySet d p).get k = d.get k
  | .nil, d, k, _ => rfl
  | .cons k0 v tl, d, k, h => by
      by_cases h0 : k0 = k
      · simp [VDoc.get, h0] at h
      · simp only [VDoc.get, if_neg h0] at h
        rw [applySet, get_applySet_of_none tl (d.set k0 v) k h,
          VDoc.get_set_ne d k0 k v h0]

theorem get_applySet_of_some :
    ∀ (p d : VDoc) (k : String) (v : Value), p.keys.Nodup →
      p.get k = some v → (applySet d p).get k = some v
  | .nil, d, k, v, _, h => by simp [VDoc.get] at h
  | .cons k0 v0 tl, d, k, v, hnd, h => by
      simp only [VDoc.keys, List.nodup_cons] at hnd
      by_cases h0 : k0 = k
      · subst h0
        have hv : v0 = v := by simpa [VDoc.get] using h
        rw [applySet,
          get_applySet_of_none tl (d.set k0 v0) k0
            (VDoc.get_eq_none_of_not_mem_keys tl k0 hnd.1),
          VDoc.get_set_self, hv]
      · simp only [VDoc.get, if_neg h0] at h
        rw [applySet, get_applySet_of_some tl (d.set k0 v0) k v hnd.2 h]

theorem VDoc.mem_keys_set :
    ∀ (d : VDoc) (k k1 : String) (v : Value),
      k1 ∈ (d.set k v).keys ↔ k1 ∈ d.keys ∨ k1 = k
  | .nil, k, k1, v => by simp [VDoc.set, VDoc.keys]
  | .cons k0 v0 tl, k, k1, v => by
      by_cases h : k0 = k
      · subst h
        simp only [VDoc.set, if_pos rfl, VDoc.keys, List.mem_cons]
        constructor
        · intro hc
          cases hc with
          | inl he => exact Or.inr he
          | inr hm => exact Or.inl (Or.inr hm)
        · intro hc
          cases hc with
          | inl hm =>
              cases hm with
              | inl he => exact Or.inl he
              | inr hm2 => exact Or.inr hm2
          | inr he => exact Or.inl he
      · simp only [VDoc.set, if_neg h, VDoc.keys, List.mem_cons,
          VDoc.mem_keys_set tl k k1 v]
        tauto

theorem VDoc.keys_set_nodup :
    ∀ (d : VDoc) (k : String) (v : Value), d.keys.Nodup →
      (d.set k v).keys.Nodup
  | .nil, k, v, _ => by simp [VDoc.set, VDoc.keys]
  | .cons k0 v0 tl, k, v, hnd => by
      simp only [VDoc.keys, List.nodup_cons] at hnd
      by_cases h : k0 = k
      · subst h
        simp only [VDoc.set, if_pos rfl, VDoc.keys, List.nodup_cons]
        exact hnd
      · simp only [VDoc.set, if_neg h, VDoc.keys, List.nodup_cons,
          VDoc.mem_keys_set]
        refine ⟨?_, VDoc.keys_set_nodup tl k v hnd.2⟩
        intro hc
        cases hc with
        | inl hm => exact hnd.1 hm
        | inr he => exact h he

theorem update_document_hit (items : Col) (i : String) (d data : VDoc)
    (now : Nat) (h : dictGet items i = some d) :
    update_document items (some i) data now =
      some (dictSet items i
        (applySet d (data.set "updated_at" (.vdt now))), 1) := by
  simp [update_document, update_one, h]

theorem update_document_miss (items : Col) (i : String) (data : VDoc)
    (now : Nat) (h : dictGet items i = none) :
    update_document items (some i) data now = some (items, 0) := by
  simp [update_document, update_one, h]

theorem update_document_nofilter (items : Col) (data : VDoc) (now : Nat) :
    update_document items none data now = some (items, 0) := rfl

mutual

theorem shallowClean_serializeVal :
    ∀ v : Value, shallowClean (serializeVal v) = true
  | .vstr _ => rfl
  | .vint _ => rfl
  | .vdt _ => rfl
  | .oidV _ => rfl
  | .vlist xs => by
      simp [serializeVal, shallowClean, listElemsClean_serializeList xs]
  | .vdoc d => by
      simp [serializeVal, shallowClean, shallowCleanDoc_serializeDoc d]

theorem listElemsClean_serializeList :
    ∀ xs : VList, listElemsClean (serializeList xs) = true
  | .nil => rfl
  | .cons x tl => by
      have hx : isObjectIdVal (oidToStr x) = false := by
        cases x <;> simp [oidToStr, isObjectIdVal]
      simp [serializeList, listElemsClean, hx,
        listElemsClean_serializeList tl]

theorem shallowCleanDoc_serializeDoc :
    ∀ d : VDoc, shallowCleanDoc (serializeDoc d) = true
  | .nil => rfl
  | .cons k v tl => by
      simp [serializeDoc, shallowCleanDoc, shallowClean_serializeVal v,
        shallowCleanDoc_serializeDoc tl]

end

/-- C2: in-memory find semantics: the empty filter returns every document,
an identifier equality filter returns the zero-or-one matching document,
an identifier dollar-in filter returns the present documents in the order
of the given list skipping absent identifiers, and a non-empty filter
without an _id key falls back to returning every document. -/
theorem c2_memory_find_semantics (items : Col) (s : String)
    (ids : List String) :
    memFind items .empty = dictValues items ∧
    (∀ d, dictGet items s = some d → memFind items (.idEq s) = [d]) ∧
    (dictGet items s = none → memFind items (.idEq s) = []) ∧
    memFind items (.idIn ids) =
      ids.flatMap (fun i => (dictGet items i).toList) ∧
    memFind items .noId = dictValues items := by
  refine ⟨rfl, ?_, ?_, ?_, rfl⟩
  · intro d h
    simp [memFind, h]
  · intro h
    simp [memFind, h]
  · induction ids with
    | nil => rfl
    | cons i tl ih =>
        simp only [memFind] at ih ⊢
        cases h : dictGet items i <;>
          simp [List.filterMap_cons, h, ih, Option.toList]

theorem c2_memory_find_semantics_witness :
    memFind [("a", VDoc.cons "t" (.vstr "X") .nil)] (.idEq "a") =
      [VDoc.cons "t" (.vstr "X") .nil] :=
  (c2_memory_find_semantics [("a", VDoc.cons "t" (.vstr "X") .nil)]
    "a" []).2.1 (VDoc.cons "t" (.vstr "X") .nil) (by decide)

/-- C9: the in-memory backend reports matched_count and modified_count 1
whenever the filter identifier is stored, including for an update argument
with no recognized operator key and for an empty dollar-set payload, both
of which leave the collection unchanged. -/
theorem c9_matched_reports_modified (items : Col) (i : String) (d : VDoc)
    (u : UpdateSpec) (h : dictGet items i = some d) :
    (∀ c r, update_one items (some i) u = some (c, r) →
      r.matched = 1 ∧ r.modified = 1) ∧
    update_one items (some i) ⟨none, none, none⟩ =
      some (items, ⟨1, 1⟩) ∧
    update_one items (some i) ⟨none, none, some .nil⟩ =
      some (items, ⟨1, 1⟩) := by
  refine ⟨?_, ?_, ?_⟩
  · intro c r hu
    simp only [update_one, h] at hu
    cases hincs : u.incs with
    | none =>
        simp only [hincs] at hu
        simp only [Option.bind_eq_bind, Option.some_bind,
          Option.pure_def, Option.some.injEq] at hu
        have hr : r = ⟨1, 1⟩ := (congrArg Prod.snd hu).symm
        rw [hr]
        exact ⟨rfl, rfl⟩
    | some kvs =>
        simp only [hincs] at hu
        cases hinc : applyIncs d kvs with
        | none =>
            simp [hinc] at hu
        | some d1 =>
            simp only [hinc] at hu
            simp only [Option.bind_eq_bind, Option.some_bind,
              Option.pure_def, Option.some.injEq] at hu
            have hr : r = ⟨1, 1⟩ := (congrArg Prod.snd hu).symm
            rw [hr]
            exact ⟨rfl, rfl⟩
  · simp [update_one, h, dictSet_self_of_get items i d h]
  · simp [update_one, applySet, h, dictSet_self_of_get items i d h]

theorem c9_matched_reports_modified_witness :
    update_one [("a", VDoc.nil)] (some "a") ⟨none, none, none⟩ =
      some ([("a", VDoc.nil)], ⟨1, 1⟩) :=
  (c9_matched_reports_modified [("a", VDoc.nil)] "a" VDoc.nil
    ⟨none, none, none⟩ (by decide)).2.1

/-- C6: a present document is removed by delete with deleted_count 1 and a
repeated delete with the same filter reports 0; for both update and
delete, a filter matching no stored identifier yields a zero count and no
error (the operations return normally). -/
theorem c6_idempotent_delete (items : Col) (i : String)
    (hnd : (items.map Prod.fst).Nodup) :
    (∀ d, dictGet items i = some d →
      delete_document items (some i) = (dictDel items i, 1) ∧
      dictGet (dictDel items i) i = none ∧
      delete_document (dictDel items i) (some i) = (dictDel items i, 0)) ∧
    (dictGet items i = none → delete_document items (some i) = (items, 0)) ∧
    (∀ u, dictGet items i = none →
      update_one items (some i) u = some (items, ⟨0, 0⟩)) ∧
    (∀ data now, dictGet items i = none →
      update_document items (some i) data now = some (items, 0)) ∧
    delete_document items none = (items, 0) := by
  refine ⟨?_, ?_, ?_, ?_, rfl⟩
  · intro d h
    have hdel : dictGet (dictDel items i) i = none :=
      dictGet_del_self items i hnd
    refine ⟨?_, hdel, ?_⟩
    · simp [delete_document, delete_one, dictHas, h]
    · simp [delete_document, delete_one, dictHas, hdel]
  · intro h
    simp [delete_document, delete_one, dictHas, h]
  · intro u h
    simp [update_one, h]
  · intro data now h
    exact update_document_miss items i data now h

theorem c6_idempotent_delete_witness :
    delete_document [("a", VDoc.nil)] (some "a") = ([], 1) ∧
    delete_document ([] : Col) (some "a") = ([], 0) := by
  have hc := c6_idempotent_delete [("a", VDoc.nil)] "a" (by decide)
  have h1 := (hc.1 VDoc.nil (by decide)).1
  have h2 := (hc.1 VDoc.nil (by decide)).2.2
  exact ⟨by simpa [dictDel] using h1, by simpa [dictDel] using h2⟩

/-- C3 counterexample: the claim says a dollar-inc over a non-numeric
existing value treats it as zero, but the code converts it with int(),
which raises; incrementing the list-valued field x of a stored document
makes update_one raise (modelled as none) instead of storing 0 + 1. -/
theorem c3_counterexample :
    dictGet c3Items "i1" = some c3Doc ∧
    c3Doc.get "x" = some (.vlist .nil) ∧
    update_one c3Items (some "i1") c3Inc = none := by decide

/-- C3 (amended): when the filter misses, the update is a no-op with zero
counts; when it matches, the operators run in the fixed order dollar-inc,
dollar-push, dollar-set on that one document. Dollar-inc adds the two
int() conversions of the existing value (defaulting a missing field to 0)
and of the payload value, raising when a conversion is impossible instead
of treating the value as zero; dollar-push appends to a list field,
creates a missing field as a one-element list and is ignored on a
non-list field; dollar-set replaces unconditionally. -/
theorem c3_update_operator_semantics (items : Col) (i : String)
    (d p : VDoc) (u : UpdateSpec) (k : String) (w : Value) (b : Int) :
    update_one items none u = some (items, ⟨0, 0⟩) ∧
    (dictGet items i = none →
      update_one items (some i) u = some (items, ⟨0, 0⟩)) ∧
    (dictGet items i = some d →
      (∀ a, pyInt ((d.get k).getD (.vint 0)) = some a →
        update_one items (some i)
            ⟨some (.cons k (.vint b) .nil), none, none⟩ =
          some (dictSet items i (d.set k (.vint (a + b))), ⟨1, 1⟩)) ∧
      (pyInt ((d.get k).getD (.vint 0)) = none →
        update_one items (some i)
            ⟨some (.cons k (.vint b) .nil), none, none⟩ = none) ∧
      (d.get k = none →
        update_one items (some i) ⟨none, some (.cons k w .nil), none⟩ =
          some (dictSet items i (d.set k (.vlist (.cons w .nil))),
            ⟨1, 1⟩)) ∧
      (∀ xs, d.get k = some (.vlist xs) →
        update_one items (some i) ⟨none, some (.cons k w .nil), none⟩ =
          some (dictSet items i (d.set k (.vlist (xs.snoc w))), ⟨1, 1⟩)) ∧
      (∀ s, d.get k = some (.vstr s) →
        update_one items (some i) ⟨none, some (.cons k w .nil), none⟩ =
          some (dictSet items i d, ⟨1, 1⟩)) ∧
      (update_one items (some i) ⟨none, none, some p⟩ =
        some (dictSet items i (applySet d p), ⟨1, 1⟩)) ∧
      (∀ a, d.get k = some (.vint a) →
        update_one items (some i)
            ⟨some (.cons k (.vint b) .nil), none,
              some (.cons k w .nil)⟩ =
          some (dictSet items i ((d.set k (.vint (a + b))).set k w),
            ⟨1, 1⟩)) ∧
      (∀ ys, d.get k = none →
        update_one items (some i)
            ⟨none, some (.cons k w .nil), some (.cons k (.vlist ys) .nil)⟩ =
          some (dictSet items i
            ((d.set k (.vlist (.cons w .nil))).set k (.vlist ys)),
            ⟨1, 1⟩))) := by
  refine ⟨rfl, ?_, ?_⟩
  · intro h
    simp [update_one, h]
  · intro h
    refine ⟨?_, ?_, ?_, ?_, ?_, ?_, ?_, ?_⟩
    · intro a ha
      simp [update_one, h, applyIncs, applyInc1, ha,
        show pyInt (.vint b) = some b from rfl, applySet]
    · intro ha
      simp [update_one, h, applyIncs, applyInc1, ha]
    · intro hk
      simp [update_one, h, applyPushes, applyPush1, hk, applySet]
    · intro xs hk
      simp [update_one, h, applyPushes, applyPush1, hk, applySet]
    · intro s hk
      simp [update_one, h, applyPushes, applyPush1, hk, applySet]
    · simp [update_one, h]
    · intro a ha
      simp [update_one, h, applyIncs, applyInc1, ha,
        show pyInt (.vint b) = some b from rfl,
        show pyInt (.vint a) = some a from rfl, applySet]
    · intro ys hk
      have hset : (d.set k (.vlist (.cons w .nil))).get k =
          some (.vlist (.cons w .nil)) := VDoc.get_set_self d k _
      simp [update_one, h, applyPushes, applyPush1, hk, applySet]

theorem c3_update_operator_semantics_witness :
    update_one [("i1", VDoc.cons "x" (.vint 3) .nil)] (some "i1")
        ⟨some (.cons "x" (.vint 2) .nil), none, none⟩ =
      some ([("i1", VDoc.cons "x" (.vint 5) .nil)], ⟨1, 1⟩) := by
  have hc := (c3_update_operator_semantics
    [("i1", VDoc.cons "x" (.vint 3) .nil)] "i1"
    (VDoc.cons "x" (.vint 3) .nil) .nil
    ⟨none, none, none⟩ "x" (.vint 0) 2).2.2 (by decide)
  have h1 := hc.1 3 (by decide)
  simpa [dictSet, VDoc.set] using h1

/-- C4: the public update applies the caller fields with updated_at
replaced by the current time, overriding any caller-supplied updated_at;
the returned modified count is 0 or 1 under the supported filter shapes,
1 exactly when the filter identifier is stored; for every other key the
matched document receives the caller value when supplied and keeps its
old value otherwise. The caller fields form a dict, so their keys are
assumed distinct. -/
theorem c4_update_stamps_updated_at (items : Col) (fid : Option String)
    (data : VDoc) (now : Nat) (hnd : data.keys.Nodup) :
    ∃ c n, update_document items fid data now = some (c, n) ∧ n ≤ 1 ∧
      (fid = none → c = items ∧ n = 0) ∧
      (∀ i, fid = some i → dictGet items i = none → c = items ∧ n = 0) ∧
      (∀ i d, fid = some i → dictGet items i = some d → n = 1 ∧
        ∃ d2, dictGet c i = some d2 ∧
          d2.get "updated_at" = some (.vdt now) ∧
          (∀ k, k ≠ "updated_at" →
            d2.get k = (data.get k).or (d.get k))) := by
  cases fid with
  | none =>
      refine ⟨items, 0, update_document_nofilter items data now,
        Nat.zero_le 1, fun _ => ⟨rfl, rfl⟩, ?_, ?_⟩
      · intro i hi
        exact absurd hi (by simp)
      · intro i d hi
        exact absurd hi (by simp)
  | some tid =>
      cases hg : dictGet items tid with
      | none =>
          refine ⟨items, 0, update_document_miss items tid data now hg,
            Nat.zero_le 1, by simp, fun i hi _ => ⟨rfl, rfl⟩, ?_⟩
          intro i d hi hgi
          obtain rfl : tid = i := by simpa using hi
          rw [hg] at hgi
          exact Option.noConfusion hgi
      | some d0 =>
          refine ⟨dictSet items tid
              (applySet d0 (data.set "updated_at" (.vdt now))), 1,
            update_document_hit items tid d0 data now hg,
            Nat.le_refl 1, by simp, ?_, ?_⟩
          · intro i hi hgi
            obtain rfl : tid = i := by simpa using hi
            rw [hg] at hgi
            exact Option.noConfusion hgi
          · intro i d hi hgi
            obtain rfl : tid = i := by simpa using hi
            rw [hg] at hgi
            obtain rfl : d0 = d := by simpa using hgi
            refine ⟨rfl, applySet d0 (data.set "updated_at" (.vdt now)),
              dictGet_set_self items tid _, ?_, ?_⟩
            · exact get_applySet_of_some _ d0 "updated_at" (.vdt now)
                (VDoc.keys_set_nodup data "updated_at" (.vdt now) hnd)
                (VDoc.get_set_self data "updated_at" (.vdt now))
            · intro k hk
              have hpk : (data.set "updated_at" (.vdt now)).get k =
                  data.get k :=
                VDoc.get_set_ne data "updated_at" k (.vdt now)
                  (fun he => hk he.symm)
              cases hdk : data.get k with
              | none =>
                  rw [get_applySet_of_none _ d0 k (by rw [hpk, hdk])]
                  simp [Option.or]
              | some v =>
                  rw [get_applySet_of_some _ d0 k v
                    (VDoc.keys_set_nodup data "updated_at" (.vdt now) hnd)
                    (by rw [hpk, hdk])]
                  simp [Option.or]

theorem c4_update_stamps_updated_at_witness :
    ∃ c n, update_document [("a", VDoc.cons "updated_at" (.vdt 1) .nil)]
        (some "a") (VDoc.cons "updated_at" (.vdt 50) .nil) 9 =
        some (c, n) ∧ n ≤ 1 ∧
      (some "a" = none →
        c = [("a", VDoc.cons "updated_at" (.vdt 1) .nil)] ∧ n = 0) ∧
      (∀ i, some "a" = some i →
        dictGet [("a", VDoc.cons "updated_at" (.vdt 1) .nil)] i = none →
        c = [("a", VDoc.cons "updated_at" (.vdt 1) .nil)] ∧ n = 0) ∧
      (∀ i d, some "a" = some i →
        dictGet [("a", VDoc.cons "updated_at" (.vdt 1) .nil)] i =
          some d → n = 1 ∧
        ∃ d2, dictGet c i = some d2 ∧
          d2.get "updated_at" = some (.vdt 9) ∧
          (∀ k, k ≠ "updated_at" →
            d2.get k =
              ((VDoc.cons "updated_at" (.vdt 50) .nil).get k).or
                (d.get k))) :=
  c4_update_stamps_updated_at
    [("a", VDoc.cons "updated_at" (.vdt 1) .nil)] (some "a")
    (VDoc.cons "updated_at" (.vdt 50) .nil) 9 (by decide)

/-- C5 counterexample: created_at is not immutable under the public
update: a document created at time 5 stores created_at 5, and one public
update whose caller fields contain created_at 99 changes the stored
created_at to 99. -/
theorem c5_counterexample :
    c5Stored.get "created_at" = some (.vdt 5) ∧
    update_document c5Items (some "id1")
      (.cons "created_at" (.vdt 99) .nil) 7 = some (c5After, 1) ∧
    c5StoredAfter.get "created_at" = some (.vdt 99) ∧
    some (Value.vdt 99) ≠ some (Value.vdt 5) := by decide

/-- C5 (amended): under public updates whose caller fields do not contain
created_at, every stored created_at value is unchanged; the matched
document has updated_at stamped to the current time of the call, so
updated_at is non-decreasing across successive updates whenever the clock
readings are; a second matching update at time t2 restamps updated_at to
t2. Caller field dicts have distinct keys. -/
theorem c5_timestamp_invariants (items : Col) (fid : Option String)
    (data : VDoc) (now : Nat)
    (hnc : data.get "created_at" = none) (hnd : data.keys.Nodup) :
    ∃ c n, update_document items fid data now = some (c, n) ∧
      (∀ i d, dictGet items i = some d →
        ∃ d2, dictGet c i = some d2 ∧
          d2.get "created_at" = d.get "created_at") ∧
      (∀ i d, fid = some i → dictGet items i = some d →
        ∃ d2, dictGet c i = some d2 ∧
          d2.get "updated_at" = some (.vdt now)) ∧
      (∀ i d data2 t2, data2.keys.Nodup → fid = some i →
        dictGet items i = some d →
        ∃ c2 d2 d3,
          update_document c (some i) data2 t2 = some (c2, 1) ∧
          dictGet c i = some d2 ∧ dictGet c2 i = some d3 ∧
          d2.get "updated_at" = some (.vdt now) ∧
          d3.get "updated_at" = some (.vdt t2) ∧
          (now ≤ t2 → ∀ a b : Nat,
            d2.get "updated_at" = some (.vdt a) →
            d3.get "updated_at" = some (.vdt b) → a ≤ b)) := by
  have hupd : ∀ (c0 : Col) (i : String) (d0 dd : VDoc) (t : Nat),
      dd.keys.Nodup → dictGet c0 i = some d0 →
      (applySet d0 (dd.set "updated_at" (.vdt t))).get "updated_at" =
        some (.vdt t) := by
    intro c0 i d0 dd t hdd _
    exact get_applySet_of_some _ d0 "updated_at" (.vdt t)
      (VDoc.keys_set_nodup dd "updated_at" (.vdt t) hdd)
      (VDoc.get_set_self dd "updated_at" (.vdt t))
  have hkeep : ∀ (d0 dd : VDoc) (t : Nat), dd.get "created_at" = none →
      (applySet d0 (dd.set "updated_at" (.vdt t))).get "created_at" =
        d0.get "created_at" := by
    intro d0 dd t h0
    refine get_applySet_of_none _ d0 "created_at" ?_
    rw [VDoc.get_set_ne dd "updated_at" "created_at" (.vdt t)
      (by decide), h0]
  cases fid with
  | none =>
      refine ⟨items, 0, update_document_nofilter items data now, ?_, ?_, ?_⟩
      · intro i d h
        exact ⟨d, h, rfl⟩
      · intro i d hi
        exact absurd hi (by simp)
      · intro i d data2 t2 _ hi
        exact absurd hi (by simp)
  | some tid =>
      cases hg : dictGet items tid with
      | none =>
          refine ⟨items, 0, update_document_miss items tid data now hg,
            ?_, ?_, ?_⟩
          · intro i d h
            exact ⟨d, h, rfl⟩
          · intro i d hi hgi
            obtain rfl : tid = i := by simpa using hi
            rw [hg] at hgi
            exact Option.noConfusion hgi
          · intro i d data2 t2 _ hi hgi
            obtain rfl : tid = i := by simpa using hi
            rw [hg] at hgi
            exact Option.noConfusion hgi
      | some d0 =>
          set d1 := applySet d0 (data.set "updated_at" (.vdt now)) with hd1
          refine ⟨dictSet items tid d1, 1,
            update_document_hit items tid d0 data now hg, ?_, ?_, ?_⟩
          · intro i d h
            by_cases hit : tid = i
            · subst hit
              rw [hg] at h
              obtain rfl : d0 = d := by simpa using h
              exact ⟨d1, dictGet_set_self items tid d1,
                hkeep d0 data now hnc⟩
            · exact ⟨d, by rw [dictGet_set_ne items tid i d1 hit]; exact h,
                rfl⟩
          · intro i d hi hgi
            obtain rfl : tid = i := by simpa using hi
            rw [hg] at hgi
            obtain rfl : d0 = d := by simpa using hgi
            exact ⟨d1, dictGet_set_self items tid d1,
              hupd items tid d0 data now hnd hg⟩
          · intro i d data2 t2 hnd2 hi hgi
            obtain rfl : tid = i := by simpa using hi
            have hc1 : dictGet (dictSet items tid d1) tid = some d1 :=
              dictGet_set_self items tid d1
            set d3 := applySet d1 (data2.set "updated_at" (.vdt t2))
              with hd3
            refine ⟨dictSet (dictSet items tid d1) tid d3, d1, d3,
              update_document_hit (dictSet items tid d1) tid d1 data2 t2
                hc1, hc1, dictGet_set_self (dictSet items tid d1) tid d3,
              hupd items tid d0 data now hnd hg,
              hupd (dictSet items tid d1) tid d1 data2 t2 hnd2 hc1, ?_⟩
            intro hle a b ha hb
            have ha2 : (Value.vdt a) = (Value.vdt now) := by
              have := ha.symm.trans (hupd items tid d0 data now hnd hg)
              simpa using this
            have hb2 : (Value.vdt b) = (Value.vdt t2) := by
              have := hb.symm.trans
                (hupd (dictSet items tid d1) tid d1 data2 t2 hnd2 hc1)
              simpa using this
            obtain rfl : a = now := by simpa using ha2
            obtain rfl : b = t2 := by simpa using hb2
            exact hle

theorem c5_timestamp_invariants_witness :
    ∃ c n, update_document c5Items (some "id1")
        (.cons "upvotes" (.vint 5) .nil) 7 = some (c, n) ∧
      (∀ i d, dictGet c5Items i = some d →
        ∃ d2, dictGet c i = some d2 ∧
          d2.get "created_at" = d.get "created_at") ∧
      (∀ i d, (some "id1" : Option String) = some i →
        dictGet c5Items i = some d →
        ∃ d2, dictGet c i = some d2 ∧
          d2.get "updated_at" = some (.vdt 7)) ∧
      (∀ i d data2 t2, data2.keys.Nodup →
        (some "id1" : Option String) = some i →
        dictGet c5Items i = some d →
        ∃ c2 d2 d3,
          update_document c (some i) data2 t2 = some (c2, 1) ∧
          dictGet c i = some d2 ∧ dictGet c2 i = some d3 ∧
          d2.get "updated_at" = some (.vdt 7) ∧
          d3.get "updated_at" = some (.vdt t2) ∧
          (7 ≤ t2 → ∀ a b : Nat,
            d2.get "updated_at" = some (.vdt a) →
            d3.get "updated_at" = some (.vdt b) → a ≤ b)) :=
  c5_timestamp_invariants c5Items (some "id1")
    (.cons "upvotes" (.vint 5) .nil) 7 (by decide) (by decide)

/-- C1 counterexample: the round trip is not the identity on every
caller-supplied field for every fields mapping: a caller-supplied _id is
overwritten by the assigned identifier, and a caller-supplied
native-identifier value is canonicalized to its string form by the read,
both visible on one concrete input. -/
theorem c1_counterexample :
    cxData.get "_id" = some (.vstr "zzz") ∧
    cxData.get "x" = some (.oidV "q") ∧
    get_documents (create_document [] cxData "aa" 0).1
      (.idEq (create_document [] cxData "aa" 0).2) 1 = [cxReadBack] ∧
    cxReadBack.get "_id" = some (.vstr "aa") ∧
    some (Value.vstr "aa") ≠ some (Value.vstr "zzz") ∧
    cxReadBack.get "x" = some (.vstr "q") ∧
    some (Value.vstr "q") ≠ some (Value.oidV "q") := by decide

/-- C1 (amended): for caller fields without an _id key and whose values
are unchanged by outbound serialization (no embedded native identifier at
serialization depth), create followed by read on the returned identifier
with limit at least 1 yields exactly one document that agrees with the
caller fields on every supplied key, carries the assigned identifier, has
created_at and updated_at populated, and has both equal to the creation
time when the caller supplied neither. -/
theorem c1_roundtrip (items : Col) (data : VDoc) (oid : String)
    (now : Nat) (limit : Nat)
    (hid : data.get "_id" = none)
    (hfix : serializeDoc data = data)
    (hlim : 1 ≤ limit) :
    ∃ d, get_documents (create_document items data oid now).1
        (.idEq (create_document items data oid now).2) limit = [d] ∧
      (∀ k v, data.get k = some v → d.get k = some v) ∧
      d.get "_id" = some (.vstr oid) ∧
      ((d.get "created_at").isSome = true) ∧
      ((d.get "updated_at").isSome = true) ∧
      (data.get "created_at" = none → data.get "updated_at" = none →
        d.get "created_at" = some (.vdt now) ∧
        d.get "updated_at" = some (.vdt now)) := by
  set payload := (data.setdefault "created_at" (.vdt now)).setdefault
    "updated_at" (.vdt now) with hpayload
  set stored := payload.set "_id" (.vstr oid) with hstored
  have hcreate : create_document items data oid now =
    (dictSet items oid stored, oid) := rfl
  have hfind : memFind (dictSet items oid stored) (.idEq oid) =
      [stored] := by
    simp [memFind, dictGet_set_self items oid stored]
  have htake : ([stored].take limit) = [stored] := by
    cases limit with
    | zero => exact absurd hlim (by simp)
    | succ m => simp
  have hget : get_documents (dictSet items oid stored) (.idEq oid)
      limit = [serializeDoc stored] := by
    rw [get_documents, hfind, htake, List.map_cons, List.map_nil]
  have hsget : ∀ k, (serializeDoc stored).get k =
      (stored.get k).map serializeVal := fun k =>
    VDoc.get_serializeDoc stored k
  refine ⟨serializeDoc stored, by rw [hcreate]; exact hget, ?_, ?_, ?_,
    ?_, ?_⟩
  · intro k v hv
    have hkid : "_id" ≠ k := by
      intro he
      rw [← he, hid] at hv
      exact Option.noConfusion hv
    have hp : payload.get k = some v :=
      VDoc.get_setdefault_of_some _ "updated_at" k (.vdt now) v
        (VDoc.get_setdefault_of_some data "created_at" k (.vdt now) v hv)
    have hs : stored.get k = some v := by
      rw [hstored, VDoc.get_set_ne payload "_id" k (.vstr oid) hkid]
      exact hp
    rw [hsget k, hs]
    simp [serializeVal_fixed_of_get data k v hfix hv]
  · rw [hsget "_id", hstored, VDoc.get_set_self payload "_id" (.vstr oid)]
    rfl
  · have hp : (payload.get "created_at").isSome = true := by
      cases hc : data.get "created_at" with
      | some v =>
          rw [VDoc.get_setdefault_of_some _ "updated_at" "created_at"
            (.vdt now) v
            (VDoc.get_setdefault_of_some data "created_at" "created_at"
              (.vdt now) v hc)]
          rfl
      | none =>
          rw [VDoc.get_setdefault_of_some _ "updated_at" "created_at"
            (.vdt now) (.vdt now)
            (VDoc.get_setdefault_of_none data "created_at" (.vdt now) hc)]
          rfl
    rw [hsget "created_at", hstored,
      VDoc.get_set_ne payload "_id" "created_at" (.vstr oid) (by decide)]
    cases hpc : payload.get "created_at" with
    | some v => rfl
    | none => rw [hpc] at hp; exact absurd hp (by simp)
  · rw [hsget "updated_at", hstored,
      VDoc.get_set_ne payload "_id" "updated_at" (.vstr oid) (by decide)]
    have hp := VDoc.get_setdefault_isSome
      (data.setdefault "created_at" (.vdt now)) "updated_at" (.vdt now)
    cases hpu : payload.get "updated_at" with
    | some v => rfl
    | none => rw [hpayload] at hpu; rw [hpu] at hp; exact absurd hp (by simp)
  · intro hc hu
    have hp1 : (data.setdefault "created_at" (.vdt now)).get "created_at"
        = some (.vdt now) :=
      VDoc.get_setdefault_of_none data "created_at" (.vdt now) hc
    have hp1u : (data.setdefault "created_at" (.vdt now)).get "updated_at"
        = none := by
      rw [VDoc.get_setdefault_ne data "created_at" "updated_at" (.vdt now)
        (by decide)]
      exact hu
    have hpc : payload.get "created_at" = some (.vdt now) :=
      VDoc.get_setdefault_of_some _ "updated_at" "created_at" (.vdt now)
        (.vdt now) hp1
    have hpu : payload.get "updated_at" = some (.vdt now) :=
      VDoc.get_setdefault_of_none _ "updated_at" (.vdt now) hp1u
    constructor
    · rw [hsget "created_at", hstored,
        VDoc.get_set_ne payload "_id" "created_at" (.vstr oid)
          (by decide), hpc]
      rfl
    · rw [hsget "updated_at", hstored,
        VDoc.get_set_ne payload "_id" "updated_at" (.vstr oid)
          (by decide), hpu]
      rfl

theorem c1_roundtrip_witness :
    ∃ d, get_documents
        (create_document [] (VDoc.cons "title" (.vstr "X")
          (VDoc.cons "maker" (.vstr "M") .nil)) "id1" 3).1
        (.idEq (create_document [] (VDoc.cons "title" (.vstr "X")
          (VDoc.cons "maker" (.vstr "M") .nil)) "id1" 3).2) 1 = [d] ∧
      (∀ k v, (VDoc.cons "title" (.vstr "X")
        (VDoc.cons "maker" (.vstr "M") .nil)).get k = some v →
        d.get k = some v) ∧
      d.get "_id" = some (.vstr "id1") ∧
      ((d.get "created_at").isSome = true) ∧
      ((d.get "updated_at").isSome = true) ∧
      ((VDoc.cons "title" (.vstr "X")
          (VDoc.cons "maker" (.vstr "M") .nil)).get "created_at" = none →
        (VDoc.cons "title" (.vstr "X")
          (VDoc.cons "maker" (.vstr "M") .nil)).get "updated_at" = none →
        d.get "created_at" = some (.vdt 3) ∧
        d.get "updated_at" = some (.vdt 3)) :=
  c1_roundtrip [] (VDoc.cons "title" (.vstr "X")
    (VDoc.cons "maker" (.vstr "M") .nil)) "id1" 3 1
    (by decide) (by decide) (by decide)

/-- C7 counterexample: a native identifier nested inside a document that
is itself an element of a list is not canonicalized: serialization leaves
the concrete document unchanged and a native identifier remains embedded
in its output, contradicting canonicalization anywhere. -/
theorem c7_counterexample :
    hasOidDoc c7NestedDoc = true ∧
    serializeDoc c7NestedDoc = c7NestedDoc ∧
    hasOidDoc (serializeDoc c7NestedDoc) = true := by decide

/-- C7 (amended): outbound serialization canonicalizes native identifiers
at the top of every field value, recursively through nested documents,
and among the direct elements of list values; identifiers nested deeper
inside list elements pass through unchanged. Timestamps and other
non-identifier scalars pass through unchanged, and nested documents are
serialized recursively. -/
theorem c7_outbound_serialization (d : VDoc) (k : String) (t : Nat)
    (s : String) (n : Int) (x : Value) :
    shallowCleanDoc (serializeDoc d) = true ∧
    (serializeDoc d).get k = (d.get k).map serializeVal ∧
    serializeVal (.oidV s) = .vstr s ∧
    serializeVal (.vdt t) = .vdt t ∧
    serializeVal (.vstr s) = .vstr s ∧
    serializeVal (.vint n) = .vint n ∧
    (isObjectIdVal x = false → oidToStr x = x) ∧
    (∀ q, d.get k = some (.vdoc q) →
      (serializeDoc d).get k = some (.vdoc (serializeDoc q))) ∧
    (∀ xs, d.get k = some (.vlist xs) →
      (serializeDoc d).get k = some (.vlist (serializeList xs)) ∧
      listElemsClean (serializeList xs) = true) := by
  refine ⟨shallowCleanDoc_serializeDoc d, VDoc.get_serializeDoc d k,
    rfl, rfl, rfl, rfl, ?_, ?_, ?_⟩
  · intro hx
    cases x
    case oidV s2 => simp [isObjectIdVal] at hx
    all_goals simp [oidToStr]
  · intro q hq
    rw [VDoc.get_serializeDoc d k, hq]
    rfl
  · intro xs hxs
    rw [VDoc.get_serializeDoc d k, hxs]
    exact ⟨rfl, listElemsClean_serializeList xs⟩

theorem c7_outbound_serialization_witness :
    shallowCleanDoc (serializeDoc cxData) = true ∧
    (serializeDoc cxData).get "x" =
      ((cxData.get "x").map serializeVal) ∧
    oidToStr (.vstr "a") = .vstr "a" :=
  ⟨(c7_outbound_serialization cxData "x" 0 "a" 0 (.vstr "a")).1,
   (c7_outbound_serialization cxData "x" 0 "a" 0 (.vstr "a")).2.1,
   (c7_outbound_serialization cxData "x" 0 "a" 0
      (.vstr "a")).2.2.2.2.2.2.1 (by decide)⟩

/-- C8: a string _id that fails to parse as a native identifier is left
untranslated with the failure swallowed (the translation returns normally
and leaves the filter unchanged), and because every stored document on
the networked backend carries a native identifier, the read surfaces an
empty result and update and delete surface zero counts rather than a
distinct invalid-identifier error. -/
theorem c8_malformed_identifier (stored : List VDoc) (f : VDoc)
    (s : String) (limit : Nat)
    (hf : f.get "_id" = some (.vstr s))
    (hbad : isValidObjectId s = false)
    (hnative : ∀ d ∈ stored, ∃ hx, d.get "_id" = some (.oidV hx)) :
    inboundTranslate f = f ∧
    mongoMatchId stored (.vstr s) = [] ∧
    mongoGetById stored f limit = [] ∧
    mongoUpdateById stored f = 0 ∧
    mongoDeleteById stored f = 0 := by
  have ht : inboundTranslate f = f := by
    simp [inboundTranslate, hf, hbad]
  have hmatch : mongoMatchId stored (.vstr s) = [] := by
    rw [mongoMatchId, List.filter_eq_nil_iff]
    intro d hd
    obtain ⟨hx, hdx⟩ := hnative d hd
    simp [hdx]
  refine ⟨ht, hmatch, ?_, ?_, ?_⟩
  · simp [mongoGetById, ht, hf, hmatch]
  · simp [mongoUpdateById, ht, hf, hmatch]
  · simp [mongoDeleteById, ht, hf, hmatch]

theorem c8_malformed_identifier_witness :
    inboundTranslate (VDoc.cons "_id" (.vstr "not-a-hex-id") .nil) =
      VDoc.cons "_id" (.vstr "not-a-hex-id") .nil ∧
    mongoGetById [] (VDoc.cons "_id" (.vstr "not-a-hex-id") .nil) 5 =
      [] := by
  have hc := c8_malformed_identifier []
    (VDoc.cons "_id" (.vstr "not-a-hex-id") .nil) "not-a-hex-id" 5
    (by decide) (by decide) (by intro d hd; exact absurd hd (by simp))
  exact ⟨hc.1, hc.2.2.1⟩

/-- C10: the inbound identifier translation touches only a top-level
string-valued _id: a dollar-in document value under _id, or an absent
_id, leaves the filter untouched; keys other than _id are never changed;
and a non-empty parseable string _id is the one case that is replaced by
the native identifier. -/
theorem c10_translation_top_level_only (f q : VDoc) :
    (f.get "_id" = some (.vdoc q) → inboundTranslate f = f) ∧
    (f.get "_id" = none → inboundTranslate f = f) ∧
    (∀ k, k ≠ "_id" → (inboundTranslate f).get k = f.get k) ∧
    (∀ s, f.get "_id" = some (.vstr s) →
      (s = "" → inboundTranslate f = f) ∧
      (isValidObjectId s = false → inboundTranslate f = f) ∧
      (s ≠ "" → isValidObjectId s = true →
        (inboundTranslate f).get "_id" = some (.oidV s))) := by
  refine ⟨?_, ?_, ?_, ?_⟩
  · intro h
    rw [inboundTranslate, h]
  · intro h
    rw [inboundTranslate, h]
  · intro k hk
    cases h : f.get "_id" with
    | none => simp [inboundTranslate, h]
    | some v =>
        cases v with
        | vstr s =>
            by_cases hcond : (decide (s ≠ "") && isValidObjectId s) = true
            · simp only [inboundTranslate, h, hcond, if_true]
              exact VDoc.get_set_ne f "_id" k (.oidV s)
                (fun he => hk he.symm)
            · simp only [inboundTranslate, h, if_neg hcond]
        | vint n => simp [inboundTranslate, h]
        | vdt t => simp [inboundTranslate, h]
        | oidV s2 => simp [inboundTranslate, h]
        | vlist xs => simp [inboundTranslate, h]
        | vdoc d2 => simp [inboundTranslate, h]
  · intro s hs
    refine ⟨?_, ?_, ?_⟩
    · intro he
      subst he
      simp [inboundTranslate, hs]
    · intro hbad
      simp [inboundTranslate, hs, hbad]
    · intro hne hok
      simp [inboundTranslate, hs, hok, hne, VDoc.get_set_self]

theorem c10_translation_top_level_only_witness :
    inboundTranslate (VDoc.cons "_id"
        (.vdoc (.cons "$in" (.vlist (.cons (.vstr "abc") .nil)) .nil))
        .nil) =
      VDoc.cons "_id"
        (.vdoc (.cons "$in" (.vlist (.cons (.vstr "abc") .nil)) .nil))
        .nil :=
  (c10_translation_top_level_only
    (VDoc.cons "_id"
      (.vdoc (.cons "$in" (.vlist (.cons (.vstr "abc") .nil)) .nil))
      .nil)
    (.cons "$in" (.vlist (.cons (.vstr "abc") .nil)) .nil)).1 (by decide)

end IdeaStore
